import Mathlib

/-!
A shallow embedding of *ring*'s test-vector framework (`src/test.rs`) and the
deterministic random sources it provides, together with proofs about the
embedded definitions.

Modelling conventions:
* Rust `String` values are modelled as `List Nat`, the list of their UTF-8
  bytes (every byte `< 256`; the inputs the claims are about are ASCII).
* A Rust `panic!`/failed `assert!` is modelled as an `Except` error value:
  the panic cause is recorded in an explicit error type so that distinct
  abort sites are distinguishable.
* Mutation of a `TestCase` (marking attributes consumed) is modelled by
  returning the updated value.
-/

deriving instance DecidableEq for Except

namespace RingTest

/-- One attribute of a test case: `(key, value, consumed)`, mirroring
`attributes: Vec<(String, String, bool)>`. -/
abbrev Attr : Type := List Nat × List Nat × Bool

/-- A test case: an ordered collection of named attributes, each with a
consumed flag.  Mirrors `pub struct TestCase`. -/
structure TestCase where
  attributes : List Attr
  deriving Repr, DecidableEq

/-- The distinct abort (panic) sites of the `TestCase` accessors. -/
inductive CasePanic where
  /-- The site `panic!("No attribute named \"{}\"", key)` in `consume_string`. -/
  | missingAttribute
  /-- The site `panic!("Attribute {} was already consumed", key)` in
  `consume_optional_string`. -/
  | alreadyConsumed
  /-- The site `panic!("expected quoted string, found {}", s)` in `consume_bytes`. -/
  | expectedQuoted
  /-- The call `s.remove(0)` on an empty string in `consume_bytes` (the strip of the
  opening quote after `pop` has emptied the string). -/
  | removeFromEmpty
  /-- The site `panic!("{} in {}", err_str, s)` in `consume_bytes` when `from_hex`
  fails. -/
  | malformedHex
  /-- The site `panic!("Unsupported digest algorithm: {}", name)` in
  `consume_digest_alg`. -/
  | unsupportedAlgorithm (name : List Nat)
  deriving Repr, DecidableEq

/-- The loop body of `consume_optional_string`: walk the attribute list, and
at the first attribute whose name equals `key` either abort (already
consumed) or mark it consumed and return its value.  Later attributes are
untouched; if no name matches, `none` is returned and the list is
unchanged. -/
def consumeOptLoop (key : List Nat) :
    List Attr → Except CasePanic (Option (List Nat) × List Attr)
  | [] => .ok (none, [])
  | (name, value, consumed) :: rest =>
    if key = name then
      if consumed then
        .error .alreadyConsumed
      else
        .ok (some value, (name, value, true) :: rest)
    else
      match consumeOptLoop key rest with
      | .error e => .error e
      | .ok (r, rest') => .ok (r, (name, value, consumed) :: rest')

/-- Method `TestCase::consume_optional_string`: like `consume_string` but returns
`none` instead of aborting when the key is absent. -/
def consume_optional_string (key : List Nat) (tc : TestCase) :
    Except CasePanic (Option (List Nat) × TestCase) :=
  match consumeOptLoop key tc.attributes with
  | .error e => .error e
  | .ok (r, attrs) => .ok (r, ⟨attrs⟩)

/-- Method `TestCase::consume_string`: `consume_optional_string` with a panic
(`missingAttribute`) when the key is absent. -/
def consume_string (key : List Nat) (tc : TestCase) :
    Except CasePanic (List Nat × TestCase) :=
  match consume_optional_string key tc with
  | .error e => .error e
  | .ok (some v, tc') => .ok (v, tc')
  | .ok (none, _) => .error .missingAttribute

/-- The error values of `from_hex` (`Err(String)` in the source; the two
distinct messages are modelled as two constructors). -/
inductive HexError where
  /-- Message "Hex string does not have an even number of digits". -/
  | oddLength
  /-- Message "Invalid hex digit '{}'" (carrying the offending byte). -/
  | invalidDigit (d : Nat)
  deriving Repr, DecidableEq

/-- Function `from_hex_digit`: decode one ASCII byte as a hex digit,
case-insensitively. -/
def from_hex_digit (d : Nat) : Except HexError Nat :=
  if 48 ≤ d ∧ d ≤ 57 then .ok (d - 48)          -- '0'..='9'
  else if 97 ≤ d ∧ d ≤ 102 then .ok (d - 97 + 10) -- 'a'..='f'
  else if 65 ≤ d ∧ d ≤ 70 then .ok (d - 65 + 10)  -- 'A'..='F'
  else .error (.invalidDigit d)

/-- The chunk loop of `from_hex`: decode successive byte pairs,
most-significant nibble first, combining with `(hi * 0x10) | lo`.  The
singleton case cannot be reached from `from_hex` (the length was checked
even); it is mapped to the odd-length error for totality. -/
def fromHexLoop : List Nat → Except HexError (List Nat)
  | [] => .ok []
  | hi :: lo :: rest =>
    match from_hex_digit hi with
    | .error e => .error e
    | .ok h =>
      match from_hex_digit lo with
      | .error e => .error e
      | .ok l =>
        match fromHexLoop rest with
        | .error e => .error e
        | .ok r => .ok ((h * 16 ||| l) :: r)
  | [_] => .error .oddLength

/-- Function `from_hex`: reject odd-length input, then decode byte pairs. -/
def from_hex (hex_str : List Nat) : Except HexError (List Nat) :=
  if hex_str.length % 2 ≠ 0 then .error .oddLength
  else fromHexLoop hex_str

/-- The ASCII code of the double-quote character. -/
def quoteByte : Nat := 34

/-- Method `TestCase::consume_bytes`: consume the attribute as a string; a value
starting with `"` must end with `"` and is stripped of its last (`pop`) and
first (`remove(0)`) characters; otherwise the value is hex-decoded.  When
`pop` leaves the string empty, `remove(0)` aborts (`removeFromEmpty`): this
happens exactly when the value is the single character `"`. -/
def consume_bytes (key : List Nat) (tc : TestCase) :
    Except CasePanic (List Nat × TestCase) :=
  match consume_string key tc with
  | .error e => .error e
  | .ok (s, tc') =>
    if s.head? = some quoteByte then
      if s.getLast? = some quoteByte then
        match s.dropLast with          -- `let _ = s.pop();`
        | [] => .error .removeFromEmpty -- `s.remove(0)` aborts on ""
        | _ :: stripped => .ok (stripped, tc')
      else
        .error .expectedQuoted
    else
      match from_hex s with
      | .error _ => .error .malformedHex
      | .ok bytes => .ok (bytes, tc')

/-- The digest algorithms *ring* exposes to the test framework
(`digest::SHA1`, …); an enumeration stands in for the `&'static
digest::Algorithm` references. -/
inductive DigestAlgorithm where
  | sha1
  | sha256
  | sha384
  | sha512
  | sha512_256
  deriving Repr, DecidableEq

/-- The UTF-8 bytes of the string "SHA1". -/
def sha1Name : List Nat := [83, 72, 65, 49]
/-- The UTF-8 bytes of the string "SHA224". -/
def sha224Name : List Nat := [83, 72, 65, 50, 50, 52]
/-- The UTF-8 bytes of the string "SHA256". -/
def sha256Name : List Nat := [83, 72, 65, 50, 53, 54]
/-- The UTF-8 bytes of the string "SHA384". -/
def sha384Name : List Nat := [83, 72, 65, 51, 56, 52]
/-- The UTF-8 bytes of the string "SHA512". -/
def sha512Name : List Nat := [83, 72, 65, 53, 49, 50]
/-- The UTF-8 bytes of the string "SHA512_256". -/
def sha512_256Name : List Nat := [83, 72, 65, 53, 49, 50, 95, 50, 53, 54]

/-- Method `TestCase::consume_digest_alg`: consume the attribute as a string and
map it through the fixed name table; "SHA224" maps to `none` (recognized
but intentionally unsupported), any name outside the table aborts. -/
def consume_digest_alg (key : List Nat) (tc : TestCase) :
    Except CasePanic (Option DigestAlgorithm × TestCase) :=
  match consume_string key tc with
  | .error e => .error e
  | .ok (name, tc') =>
    if name = sha1Name then .ok (some .sha1, tc')
    else if name = sha224Name then .ok (none, tc') -- actively skipped
    else if name = sha256Name then .ok (some .sha256, tc')
    else if name = sha384Name then .ok (some .sha384, tc')
    else if name = sha512Name then .ok (some .sha512, tc')
    else if name = sha512_256Name then .ok (some .sha512_256, tc')
    else .error (.unsupportedAlgorithm name)

/-! ## The file parser (`parse_test_case`) -/

/-- The distinct abort sites of `parse_test_case` (all are fatal for the
whole run, not for a single case). -/
inductive ParsePanic where
  /-- The check `assert!(is_first_line)`: a section marker after an attribute line of
  the same pending case. -/
  | sectionNotFirst
  /-- The check `assert!(line.ends_with(']'))`. -/
  | sectionNotClosed
  /-- The site `panic!("Syntax error: Expected Key = Value.")`. -/
  | syntaxError
  /-- The check `assert_ne!(value.len(), 0)`: an attribute line whose trimmed value is
  empty. -/
  | emptyValue
  deriving Repr, DecidableEq

/-- Rust `str::splitn(2, sep)` followed by the two-parts check: split the
line at the *first* occurrence of `sep`, keeping the remainder (later
occurrences included) whole; `none` when `sep` does not occur. -/
def splitn2 (sep : List Nat) : List Nat → Option (List Nat × List Nat)
  | [] => none
  | c :: rest =>
    if sep.isPrefixOf (c :: rest) then
      some ([], (c :: rest).drop sep.length)
    else
      match splitn2 sep rest with
      | none => none
      | some (pre, post) => some (c :: pre, post)

/-- The bytes Rust's `str::trim` strips at either end, restricted to the
ASCII range: tab, LF, VT, FF, CR and space. -/
def isWhitespace (c : Nat) : Bool :=
  c = 9 || c = 10 || c = 11 || c = 12 || c = 13 || c = 32

/-- Rust `str::trim`: drop leading and trailing whitespace. -/
def trim (s : List Nat) : List Nat :=
  ((s.dropWhile isWhitespace).reverse.dropWhile isWhitespace).reverse

/-- The UTF-8 bytes of the separator `" = "`. -/
def eqSep : List Nat := [32, 61, 32]

/-- The body of `parse_test_case`'s `loop`, one iteration per input line.
State: the persistent current section, the attributes accumulated for the
pending case, and the `is_first_line` flag (true until the first attribute
line of the pending case).  Returns the section after the case, the parsed
case (`none` at end of input with an empty pending case) and the remaining
lines. -/
def parseCaseLoop (current_section : List Nat) (attributes : List Attr)
    (is_first_line : Bool) :
    List (List Nat) →
    Except ParsePanic (List Nat × Option TestCase × List (List Nat))
  | [] =>
    -- End of input: "no more cases" on an empty pending case, otherwise
    -- the pending case is the final one.
    if is_first_line then .ok (current_section, none, [])
    else .ok (current_section, some ⟨attributes⟩, [])
  | line :: rest =>
    if line = [] then
      -- A blank line ends a non-empty test case; leading blanks ignored.
      if is_first_line then
        parseCaseLoop current_section attributes is_first_line rest
      else
        .ok (current_section, some ⟨attributes⟩, rest)
    else if line.head? = some 35 then -- '#': comment, ignored
      parseCaseLoop current_section attributes is_first_line rest
    else if line.head? = some 91 then -- '[': section marker
      if ¬ is_first_line then .error .sectionNotFirst
      else if line.getLast? ≠ some 93 then .error .sectionNotClosed -- ']'
      else
        -- `current_section` is replaced by the line minus its final `]`
        -- (`pop`) and leading `[` (`remove(0)`); no attribute is added.
        parseCaseLoop (line.dropLast.drop 1) attributes is_first_line rest
    else
      match splitn2 eqSep line with
      | none => .error .syntaxError
      | some (rawKey, rawValue) =>
        let key := trim rawKey
        let value := trim rawValue
        if value.length = 0 then .error .emptyValue
        else
          parseCaseLoop current_section
            (attributes ++ [(key, value, false)]) false rest

/-- Function `parse_test_case`: run the line loop starting from an empty pending
case. -/
def parse_test_case (current_section : List Nat) (lines : List (List Nat)) :
    Except ParsePanic (List Nat × Option TestCase × List (List Nat)) :=
  parseCaseLoop current_section [] true lines

/-- The line loop never produces more remaining lines than it was given. -/
theorem parseCaseLoop_rest_le (ls : List (List Nat)) :
    ∀ s a first s' otc rest,
      parseCaseLoop s a first ls = .ok (s', otc, rest) →
      rest.length ≤ ls.length := by
  induction ls with
  | nil =>
    intro s a first s' otc rest h
    simp only [parseCaseLoop] at h
    split at h <;> (cases h; simp)
  | cons line ls ih =>
    intro s a first s' otc rest h
    simp only [parseCaseLoop] at h
    split at h
    · split at h
      · exact le_trans (ih _ _ _ _ _ _ h) (Nat.le_succ _)
      · cases h; exact Nat.le_succ _
    · split at h
      · exact le_trans (ih _ _ _ _ _ _ h) (Nat.le_succ _)
      · split at h
        · split at h
          · exact absurd h (by simp)
          · split at h
            · exact absurd h (by simp)
            · exact le_trans (ih _ _ _ _ _ _ h) (Nat.le_succ _)
        · split at h
          · exact absurd h (by simp)
          · split at h
            · exact absurd h (by simp)
            · exact le_trans (ih _ _ _ _ _ _ h) (Nat.le_succ _)

/-- When `parse_test_case` produces a case, it consumed at least one
line. -/
theorem parse_test_case_some_lt {s : List Nat} {lines : List (List Nat)}
    {s' : List Nat} {tc : TestCase} {rest : List (List Nat)}
    (h : parse_test_case s lines = .ok (s', some tc, rest)) :
    rest.length < lines.length := by
  cases lines with
  | nil =>
    simp [parse_test_case, parseCaseLoop] at h
  | cons line ls =>
    simp only [parse_test_case, parseCaseLoop] at h
    split at h
    · split at h
      · exact Nat.lt_succ_of_le (parseCaseLoop_rest_le _ _ _ _ _ _ _ h)
      · cases h; exact Nat.lt_succ_of_le le_rfl
    · split at h
      · exact Nat.lt_succ_of_le (parseCaseLoop_rest_le _ _ _ _ _ _ _ h)
      · split at h
        · split at h
          · exact absurd h (by simp)
          · split at h
            · exact absurd h (by simp)
            · exact Nat.lt_succ_of_le (parseCaseLoop_rest_le _ _ _ _ _ _ _ h)
        · split at h
          · exact absurd h (by simp)
          · split at h
            · exact absurd h (by simp)
            · exact Nat.lt_succ_of_le (parseCaseLoop_rest_le _ _ _ _ _ _ _ h)

/-- The `while let Some(test_case) = parse_test_case(...)` loop head of
`from_file`: repeatedly parse, threading the persistent section, and
collect the (section, case) pairs in order.  (The callback cannot influence
parsing, so collecting all cases before running them is observationally
equivalent to the interleaved source loop.) -/
def parseAllCases (current_section : List Nat) (lines : List (List Nat)) :
    Except ParsePanic (List (List Nat × TestCase)) :=
  match h : parse_test_case current_section lines with
  | .error e => .error e
  | .ok (_, none, _) => .ok []
  | .ok (s', some tc, rest) =>
    match parseAllCases s' rest with
    | .error e => .error e
    | .ok cases => .ok ((s', tc) :: cases)
termination_by lines.length
decreasing_by exact parse_test_case_some_lt h

/-! ## The driver (`from_file`) -/

/-- What one invocation of the caller-supplied callback can do: return
`Ok(())`, return `Err(error::Unspecified)`, or panic. -/
inductive CbResult where
  | ok
  | err
  | panicked
  deriving Repr, DecidableEq

/-- The driver's classification of one case (the `Ok(())`/unconsumed
distinction plus the two failure messages). -/
inductive CaseStatus where
  | passed
  /-- Message "Test didn't consume all attributes." -/
  | unconsumedAttributes
  /-- Message "Test returned Err(error::Unspecified)." -/
  | callbackReturnedError
  /-- Message "Test panicked." -/
  | callbackPanicked
  deriving Repr, DecidableEq

/-- How `from_file` itself can abort: a parse panic propagating out of
`parse_test_case`, or the final `panic!("Test failed.")`. -/
inductive DriverPanic where
  | parse (e : ParsePanic)
  | testFailed
  deriving Repr, DecidableEq

/-- The `match result` in `from_file`'s loop body: a callback success
passes only if no attribute is left unconsumed (checked on the test case as
mutated by the callback); an `Err` return and a caught panic are the two
other failure messages. -/
def classifyOutcome (tc : TestCase) (r : CbResult) : CaseStatus :=
  match r with
  | .ok =>
    if tc.attributes.any (fun a => !a.2.2) then .unconsumedAttributes
    else .passed
  | .err => .callbackReturnedError
  | .panicked => .callbackPanicked

/-- The driver loop over the parsed cases.  The callback is modelled as a
pure function `f` threading its own state `σ` (Rust `FnMut` captures) and
returning the mutated test case together with its result; each case is
wrapped in `catch_unwind`, so a panic is caught here and never stops the
loop.  Returns the final callback state and the per-case statuses in
order. -/
def runCases {σ : Type} (f : σ → List Nat → TestCase → σ × TestCase × CbResult) :
    σ → List (List Nat × TestCase) → σ × List CaseStatus
  | s, [] => (s, [])
  | s, (sec, tc) :: rest =>
    let out := f s sec tc
    let next := runCases f out.1 rest
    (next.1, classifyOutcome out.2.1 out.2.2 :: next.2)

/-- Function `from_file` (file contents given as the list of its lines): parse and
run every case, then `panic!("Test failed.")` exactly when some case
failed; parse panics propagate immediately. -/
def from_file {σ : Type}
    (f : σ → List Nat → TestCase → σ × TestCase × CbResult)
    (s0 : σ) (lines : List (List Nat)) : Except DriverPanic Unit :=
  match parseAllCases [] lines with
  | .error e => .error (.parse e)
  | .ok cases =>
    if (runCases f s0 cases).2.any (fun st => decide (st ≠ .passed)) then
      .error .testFailed
    else
      .ok ()

/-! ## Deterministic random sources (`test::rand`) -/

/-- Struct `FixedSliceSequenceRandom`: an ordered sequence of test vectors and a
cursor (`current: UnsafeCell<usize>`, to be initialised to zero). -/
structure FixedSliceSequenceRandom where
  bytes : List (List Nat)
  current : Nat
  deriving Repr, DecidableEq

/-- The abort sites of `FixedSliceSequenceRandom::fill`. -/
inductive FillPanic where
  /-- Indexing `self.bytes[current]` with `current` past the last vector. -/
  | indexOutOfBounds
  /-- The call `dest.copy_from_slice(bytes)` with mismatched lengths. -/
  | lengthMismatch
  deriving Repr, DecidableEq

/-- Method `fill`: read the cursor, index the vector sequence (aborts past the
end), copy the vector into `dest` (aborts unless `dest` has exactly the
vector's length), then advance the cursor by one.  Returns the bytes
written and the updated source. -/
def FixedSliceSequenceRandom.fill (r : FixedSliceSequenceRandom)
    (destLen : Nat) :
    Except FillPanic (List Nat × FixedSliceSequenceRandom) :=
  match r.bytes[r.current]? with
  | none => .error .indexOutOfBounds
  | some b =>
    if destLen = b.length then .ok (b, ⟨r.bytes, r.current + 1⟩)
    else .error .lengthMismatch

/-- The `Drop` impl's `assert_eq!(*current, bytes.len())`: destruction
succeeds exactly when the cursor equals the sequence length. -/
def FixedSliceSequenceRandom.dropCheck (r : FixedSliceSequenceRandom) : Bool :=
  r.current = r.bytes.length

/-! ## Theorems -/

/-- Spec-side: is `c` the ASCII code of a hex digit (`0-9`, `a-f`,
`A-F`)? -/
def isHexDigit (c : Nat) : Bool :=
  (48 ≤ c && c ≤ 57) || (97 ≤ c && c ≤ 102) || (65 ≤ c && c ≤ 70)

/-- Spec-side numeric value of a hex digit, case-insensitive. -/
def hexDigitVal (c : Nat) : Nat :=
  if 48 ≤ c ∧ c ≤ 57 then c - 48
  else if 97 ≤ c ∧ c ≤ 102 then c - 97 + 10
  else c - 65 + 10

/-- Spec-side pair decoder: each successive character pair becomes one
byte, most-significant nibble first. -/
def decodeHexPairs : List Nat → List Nat
  | hi :: lo :: rest => (hexDigitVal hi * 16 + hexDigitVal lo) :: decodeHexPairs rest
  | _ => []

theorem from_hex_digit_ok {c : Nat} (h : isHexDigit c = true) :
    from_hex_digit c = .ok (hexDigitVal c) := by
  simp only [isHexDigit, Bool.or_eq_true, Bool.and_eq_true, decide_eq_true_eq] at h
  simp only [from_hex_digit, hexDigitVal]
  split_ifs <;> first | rfl | (exfalso; omega)

theorem from_hex_digit_err {c : Nat} (h : isHexDigit c = false) :
    from_hex_digit c = .error (.invalidDigit c) := by
  simp only [isHexDigit, Bool.or_eq_false_iff, Bool.and_eq_false_iff,
    decide_eq_false_iff_not] at h
  simp only [from_hex_digit]
  split_ifs <;> first | rfl | (exfalso; omega)

theorem from_hex_digit_ok_hex {c v : Nat} (h : from_hex_digit c = .ok v) :
    isHexDigit c = true := by
  by_contra hbad
  rw [from_hex_digit_err (by simpa using hbad)] at h
  exact absurd h (by simp)

theorem hexDigitVal_lt {c : Nat} (h : isHexDigit c = true) :
    hexDigitVal c < 16 := by
  simp only [isHexDigit, Bool.or_eq_true, Bool.and_eq_true, decide_eq_true_eq] at h
  simp only [hexDigitVal]
  split_ifs <;> omega

/-- For nibbles, bitwise or with the shifted high nibble is addition. -/
theorem nibble_lor_eq_add {h l : Nat} (hh : h < 16) (hl : l < 16) :
    h * 16 ||| l = h * 16 + l := by
  have key : ∀ h' < 16, ∀ l' < 16, h' * 16 ||| l' = h' * 16 + l' := by decide
  exact key h hh l hl

/-- Induction taking list elements two at a time, matching the pair
structure of hex decoding. -/
theorem twoStepInduction {motive : List Nat → Prop} (h0 : motive [])
    (h1 : ∀ c, motive [c])
    (h2 : ∀ a b rest, motive rest → motive (a :: b :: rest)) :
    ∀ l, motive l
  | [] => h0
  | [c] => h1 c
  | a :: b :: rest => h2 a b rest (twoStepInduction h0 h1 h2 rest)

theorem fromHexLoop_ok {s : List Nat} (heven : s.length % 2 = 0)
    (hhex : ∀ c ∈ s, isHexDigit c = true) :
    fromHexLoop s = .ok (decodeHexPairs s) := by
  induction s using twoStepInduction with
  | h0 => rfl
  | h1 c => simp at heven
  | h2 hi lo rest ih =>
    have hhi : isHexDigit hi = true := hhex hi (by simp)
    have hlo : isHexDigit lo = true := hhex lo (by simp)
    have ihh := ih (by simp only [List.length_cons] at heven ⊢; omega)
      (fun c hc => hhex c (by simp [hc]))
    simp only [fromHexLoop, from_hex_digit_ok hhi, from_hex_digit_ok hlo, ihh,
      decodeHexPairs]
    rw [nibble_lor_eq_add (hexDigitVal_lt hhi) (hexDigitVal_lt hlo)]

theorem fromHexLoop_all_hex {s : List Nat} {b : List Nat}
    (h : fromHexLoop s = .ok b) : ∀ c ∈ s, isHexDigit c = true := by
  induction s using twoStepInduction generalizing b with
  | h0 => simp
  | h1 c => exact absurd h (by simp [fromHexLoop])
  | h2 hi lo rest ih =>
    simp only [fromHexLoop] at h
    cases hhi : from_hex_digit hi with
    | error e => rw [hhi] at h; exact absurd h (by simp)
    | ok vh =>
      rw [hhi] at h
      cases hlo : from_hex_digit lo with
      | error e => rw [hlo] at h; exact absurd h (by simp)
      | ok vl =>
        rw [hlo] at h
        cases hr : fromHexLoop rest with
        | error e => rw [hr] at h; exact absurd h (by simp)
        | ok vr =>
          intro c hc
          rcases hc with _ | ⟨_, hc⟩
          · exact from_hex_digit_ok_hex hhi
          · rcases hc with _ | ⟨_, hc⟩
            · exact from_hex_digit_ok_hex hlo
            · exact ih hr c hc

/-- C6: `from_hex` succeeds exactly on even-length all-hex-digit strings,
and then decodes successive pairs most-significant nibble first,
case-insensitively; otherwise it returns an error. -/
theorem from_hex_correct (s : List Nat) :
    ((∃ b, from_hex s = .ok b) ↔
      (s.length % 2 = 0 ∧ ∀ c ∈ s, isHexDigit c = true)) ∧
    (s.length % 2 = 0 → (∀ c ∈ s, isHexDigit c = true) →
      from_hex s = .ok (decodeHexPairs s)) := by
  have hpos : s.length % 2 = 0 → (∀ c ∈ s, isHexDigit c = true) →
      from_hex s = .ok (decodeHexPairs s) := by
    intro heven hhex
    rw [from_hex, if_neg (show ¬(s.length % 2 ≠ 0) by omega)]
    exact fromHexLoop_ok heven hhex
  refine ⟨⟨?_, ?_⟩, hpos⟩
  · rintro ⟨b, hb⟩
    rw [from_hex] at hb
    split at hb
    · exact absurd hb (by simp)
    · exact ⟨by omega, fromHexLoop_all_hex hb⟩
  · rintro ⟨heven, hhex⟩
    exact ⟨decodeHexPairs s, hpos heven hhex⟩

/-- Witness for `from_hex_correct` at the concrete input "0aF1". -/
theorem from_hex_correct_witness :
    from_hex [48, 97, 70, 49] = .ok [10, 241] :=
  (from_hex_correct [48, 97, 70, 49]).2 (by decide) (by decide)

/-- C7: an attribute value formed by wrapping a quote-free byte sequence
`b` in a pair of double quotes is decoded by `consume_bytes` to exactly
`b` (raw bytes, no escape processing); with `b = []` this covers `""`
decoding to the empty sequence.  (Strings are modelled at the UTF-8 byte
level, so validity of `b` as UTF-8 needs no separate hypothesis.) -/
theorem consume_bytes_quoted_roundtrip (key b : List Nat)
    (hq : quoteByte ∉ b) :
    consume_bytes key ⟨[(key, quoteByte :: (b ++ [quoteByte]), false)]⟩ =
      .ok (b, ⟨[(key, quoteByte :: (b ++ [quoteByte]), true)]⟩) := by
  clear hq
  have hcons : quoteByte :: (b ++ [quoteByte]) =
      (quoteByte :: b) ++ [quoteByte] := by simp
  have hlast : (quoteByte :: (b ++ [quoteByte])).getLast? = some quoteByte := by
    rw [hcons, List.getLast?_concat]
  have hdrop : (quoteByte :: (b ++ [quoteByte])).dropLast = quoteByte :: b := by
    rw [hcons, List.dropLast_concat]
  simp [consume_bytes, consume_string, consume_optional_string, consumeOptLoop,
    hlast, hdrop]

/-- Witness for `consume_bytes_quoted_roundtrip` at `b = "ab"` and at the
empty sequence (`""`). -/
theorem consume_bytes_quoted_roundtrip_witness :
    consume_bytes [75] ⟨[([75], [34, 97, 98, 34], false)]⟩ =
      .ok ([97, 98], ⟨[([75], [34, 97, 98, 34], true)]⟩) ∧
    consume_bytes [75] ⟨[([75], [34, 34], false)]⟩ =
      .ok ([], ⟨[([75], [34, 34], true)]⟩) :=
  ⟨consume_bytes_quoted_roundtrip [75] [97, 98] (by decide),
   consume_bytes_quoted_roundtrip [75] [] (by decide)⟩

/-- C10: when the raw attribute value is the single character `"`, the
quoted-shape check passes (the one character is both the opening and the
closing quote), and `consume_bytes` aborts in `remove(0)` on the
now-empty string — the abort site is `removeFromEmpty`, not the
`expectedQuoted` shape panic nor a hex error, and no byte-sequence result
is produced. -/
theorem consume_bytes_single_quote_aborts :
    consume_bytes [75] ⟨[([75], [34], false)]⟩ = .error .removeFromEmpty :=
  rfl

/-- Spec-side: the first attribute with the given key (consumed or not),
as (value, consumed flag). -/
def findKey (key : List Nat) : List Attr → Option (List Nat × Bool)
  | [] => none
  | (name, value, consumed) :: rest =>
    if key = name then some (value, consumed) else findKey key rest

theorem consumeOptLoop_spec (key : List Nat) (attrs : List Attr) :
    (findKey key attrs = none → consumeOptLoop key attrs = .ok (none, attrs)) ∧
    (∀ v, findKey key attrs = some (v, true) →
      consumeOptLoop key attrs = .error .alreadyConsumed) ∧
    (∀ v, findKey key attrs = some (v, false) →
      ∃ attrs', consumeOptLoop key attrs = .ok (some v, attrs') ∧
        findKey key attrs' = some (v, true)) := by
  induction attrs with
  | nil => exact ⟨fun _ => rfl, fun v h => by simp [findKey] at h,
      fun v h => by simp [findKey] at h⟩
  | cons a rest ih =>
    obtain ⟨name, value, consumed⟩ := a
    by_cases hk : key = name
    · subst hk
      refine ⟨?_, ?_, ?_⟩
      · intro h; simp [findKey] at h
      · intro v h
        simp only [findKey, if_pos rfl] at h
        obtain ⟨hv, hc⟩ := by simpa using h
        subst hv; subst hc
        simp [consumeOptLoop]
      · intro v h
        simp only [findKey, if_pos rfl] at h
        obtain ⟨hv, hc⟩ := by simpa using h
        subst hv; subst hc
        exact ⟨(key, value, true) :: rest,
          by simp [consumeOptLoop], by simp [findKey]⟩
    · have hfk : ∀ r, findKey key ((name, value, consumed) :: r) =
          findKey key r := by intro r; simp [findKey, hk]
      refine ⟨?_, ?_, ?_⟩
      · intro h
        rw [hfk] at h
        simp [consumeOptLoop, hk, ih.1 h]
      · intro v h
        rw [hfk] at h
        simp [consumeOptLoop, hk, ih.2.1 v h]
      · intro v h
        rw [hfk] at h
        obtain ⟨attrs', ha, hf⟩ := ih.2.2 v h
        exact ⟨(name, value, consumed) :: attrs',
          by simp [consumeOptLoop, hk, ha], by rw [hfk]; exact hf⟩

/-- C3 (amended): `consume_string` locates the *first* attribute whose key
matches, regardless of its consumed flag: if none exists it aborts with
`missingAttribute`; if the first match is already consumed it aborts with
`alreadyConsumed` (even when a later unconsumed attribute with the same
key exists); otherwise it marks that attribute consumed and returns its
raw value, and a second consume of the same key afterwards aborts with
`alreadyConsumed` — so at most one read of an attribute ever succeeds. -/
theorem consume_string_first_match (key : List Nat) (tc : TestCase) :
    (findKey key tc.attributes = none →
      consume_string key tc = .error .missingAttribute) ∧
    (∀ v, findKey key tc.attributes = some (v, true) →
      consume_string key tc = .error .alreadyConsumed) ∧
    (∀ v, findKey key tc.attributes = some (v, false) →
      ∃ tc', consume_string key tc = .ok (v, tc') ∧
        consume_string key tc' = .error .alreadyConsumed) := by
  obtain ⟨attrs⟩ := tc
  refine ⟨?_, ?_, ?_⟩
  · intro h
    simp [consume_string, consume_optional_string,
      (consumeOptLoop_spec key attrs).1 h]
  · intro v h
    simp [consume_string, consume_optional_string,
      (consumeOptLoop_spec key attrs).2.1 v h]
  · intro v h
    obtain ⟨attrs', ha, hf⟩ := (consumeOptLoop_spec key attrs).2.2 v h
    refine ⟨⟨attrs'⟩, ?_, ?_⟩
    · simp [consume_string, consume_optional_string, ha]
    · simp [consume_string, consume_optional_string,
        (consumeOptLoop_spec key attrs').2.1 v hf]

/-- Witness for `consume_string_first_match` on a one-attribute case:
consuming succeeds once and a second consume aborts. -/
theorem consume_string_first_match_witness :
    ∃ tc', consume_string [75] ⟨[([75], [97], false)]⟩ = .ok ([97], tc') ∧
      consume_string [75] tc' = .error .alreadyConsumed :=
  (consume_string_first_match [75] ⟨[([75], [97], false)]⟩).2.2 [97] (by decide)

/-- C3 counterexample input: two attributes share the key "K"; the first
is already consumed, the second is not. -/
def dupKeyCase : TestCase := ⟨[([75], [97], true), ([75], [98], false)]⟩

/-- C3 counterexample: `dupKeyCase` has an unconsumed attribute with key
"K" (so, per the claim, `consume_string "K"` should find that first
unconsumed matching attribute and return its value [98]), yet the code
aborts with `alreadyConsumed` because the *first* matching attribute —
consumed or not — is the one it inspects. -/
theorem consume_string_first_unconsumed_false :
    (([75], [98], false) ∈ dupKeyCase.attributes) ∧
    consume_string [75] dupKeyCase = .error .alreadyConsumed :=
  ⟨by decide, rfl⟩

/-- C8: `consume_digest_alg` maps the consumed string through the fixed
table — "SHA1", "SHA256", "SHA384", "SHA512" and "SHA512_256" each yield a
present algorithm, "SHA224" yields `none` without error, and any other
name aborts with `unsupportedAlgorithm` for that case. -/
theorem consume_digest_alg_table (key : List Nat) (tc tc' : TestCase)
    (v : List Nat) (hcs : consume_string key tc = .ok (v, tc')) :
    (v = sha1Name →
      consume_digest_alg key tc = .ok (some .sha1, tc')) ∧
    (v = sha224Name →
      consume_digest_alg key tc = .ok (none, tc')) ∧
    (v = sha256Name →
      consume_digest_alg key tc = .ok (some .sha256, tc')) ∧
    (v = sha384Name →
      consume_digest_alg key tc = .ok (some .sha384, tc')) ∧
    (v = sha512Name →
      consume_digest_alg key tc = .ok (some .sha512, tc')) ∧
    (v = sha512_256Name →
      consume_digest_alg key tc = .ok (some .sha512_256, tc')) ∧
    (v ∉ [sha1Name, sha224Name, sha256Name, sha384Name, sha512Name,
        sha512_256Name] →
      consume_digest_alg key tc = .error (.unsupportedAlgorithm v)) := by
  have hda : consume_digest_alg key tc =
      (if v = sha1Name then .ok (some .sha1, tc')
       else if v = sha224Name then .ok (none, tc')
       else if v = sha256Name then .ok (some .sha256, tc')
       else if v = sha384Name then .ok (some .sha384, tc')
       else if v = sha512Name then .ok (some .sha512, tc')
       else if v = sha512_256Name then .ok (some .sha512_256, tc')
       else .error (.unsupportedAlgorithm v)) := by
    simp only [consume_digest_alg, hcs]
  refine ⟨?_, ?_, ?_, ?_, ?_, ?_, ?_⟩ <;> intro hv
  · subst hv; rw [hda]; rfl
  · subst hv; rw [hda]; rfl
  · subst hv; rw [hda]; rfl
  · subst hv; rw [hda]; rfl
  · subst hv; rw [hda]; rfl
  · subst hv; rw [hda]; rfl
  · simp only [List.mem_cons, List.mem_singleton, not_or] at hv
    obtain ⟨h1, h2, h3, h4, h5, h6⟩ := by
      simpa using hv
    rw [hda, if_neg h1, if_neg h2, if_neg h3, if_neg h4, if_neg h5, if_neg h6]

/-- Witness for `consume_digest_alg_table`: "SHA256" yields the present
SHA-256 algorithm, "SHA224" yields `none`, and "MD5" aborts. -/
theorem consume_digest_alg_table_witness :
    consume_digest_alg [72] ⟨[([72], sha256Name, false)]⟩ =
      .ok (some .sha256, ⟨[([72], sha256Name, true)]⟩) ∧
    consume_digest_alg [72] ⟨[([72], sha224Name, false)]⟩ =
      .ok (none, ⟨[([72], sha224Name, true)]⟩) ∧
    consume_digest_alg [72] ⟨[([72], [77, 68, 53], false)]⟩ =
      .error (.unsupportedAlgorithm [77, 68, 53]) :=
  ⟨(consume_digest_alg_table [72] ⟨[([72], sha256Name, false)]⟩
      ⟨[([72], sha256Name, true)]⟩ sha256Name rfl).2.2.1 rfl,
   (consume_digest_alg_table [72] ⟨[([72], sha224Name, false)]⟩
      ⟨[([72], sha224Name, true)]⟩ sha224Name rfl).2.1 rfl,
   (consume_digest_alg_table [72] ⟨[([72], [77, 68, 53], false)]⟩
      ⟨[([72], [77, 68, 53], true)]⟩ [77, 68, 53] rfl).2.2.2.2.2.2
     (by decide)⟩

/-- Driving `fill` once per requested length, collecting the outputs in
order (the bytes each call writes into its `dest`). -/
def runFills (r : FixedSliceSequenceRandom) :
    List Nat → Except FillPanic (List (List Nat) × FixedSliceSequenceRandom)
  | [] => .ok ([], r)
  | d :: ds =>
    match r.fill d with
    | .error e => .error e
    | .ok (b, r') =>
      match runFills r' ds with
      | .error e => .error e
      | .ok (bs, r'') => .ok (b :: bs, r'')

theorem runFills_from_cursor (bs : List (List Nat)) :
    ∀ pre : List (List Nat),
      runFills ⟨pre ++ bs, pre.length⟩ (bs.map List.length) =
        .ok (bs, ⟨pre ++ bs, (pre ++ bs).length⟩) := by
  induction bs with
  | nil => intro pre; simp [runFills]
  | cons b rest ih =>
    intro pre
    have hfill : FixedSliceSequenceRandom.fill ⟨pre ++ b :: rest, pre.length⟩
        b.length = .ok (b, ⟨pre ++ b :: rest, pre.length + 1⟩) := by
      have hidx : (pre ++ b :: rest)[pre.length]? = some b := by
        rw [List.getElem?_append_right le_rfl]
        simp
      simp [FixedSliceSequenceRandom.fill, hidx]
    have ihb := ih (pre ++ [b])
    simp only [List.append_assoc, List.singleton_append,
      List.length_append, List.length_singleton] at ihb
    simp only [List.map_cons, runFills, hfill, ihb]
    simp [List.length_append]

/-- C4: for the sequential deterministic random source, a `fill` at cursor
`i` returns exactly the `i`-th vector when the destination length matches
it (advancing the cursor to `i + 1`), aborts on a length mismatch, and
aborts once the cursor is past the last vector; starting at cursor zero,
successive matching calls return the vectors in order (the `i`-th call
yields the `i`-th vector) and leave the cursor at the sequence length;
the destruction check accepts exactly when the cursor equals the sequence
length — unconsumed vectors make it abort, not a silent no-op. -/
theorem fixed_slice_sequence_random_spec (r : FixedSliceSequenceRandom)
    (i destLen : Nat) :
    (r.current = i → ∀ h : i < r.bytes.length,
      destLen = (r.bytes.get ⟨i, h⟩).length →
      r.fill destLen = .ok (r.bytes.get ⟨i, h⟩, ⟨r.bytes, i + 1⟩)) ∧
    (r.current = i → ∀ h : i < r.bytes.length,
      destLen ≠ (r.bytes.get ⟨i, h⟩).length →
      r.fill destLen = .error .lengthMismatch) ∧
    (r.bytes.length ≤ r.current → r.fill destLen = .error .indexOutOfBounds) ∧
    (r.current = 0 →
      runFills r (r.bytes.map List.length) =
        .ok (r.bytes, ⟨r.bytes, r.bytes.length⟩)) ∧
    (r.dropCheck = true ↔ r.current = r.bytes.length) := by
  obtain ⟨bytes, current⟩ := r
  refine ⟨?_, ?_, ?_, ?_, ?_⟩
  · intro hc h hd
    subst hc
    have hidx : bytes[current]? = some (bytes.get ⟨current, h⟩) := by
      rw [List.getElem?_eq_getElem h]; rfl
    simp [FixedSliceSequenceRandom.fill, hidx, hd]
  · intro hc h hd
    subst hc
    rw [List.get_eq_getElem] at hd
    have hidx : bytes[current]? = some (bytes.get ⟨current, h⟩) := by
      rw [List.getElem?_eq_getElem h]; rfl
    simp [FixedSliceSequenceRandom.fill, hidx, hd]
  · intro hc
    have hidx : bytes[current]? = none := by
      rw [List.getElem?_eq_none hc]
    simp [FixedSliceSequenceRandom.fill, hidx]
  · intro hc
    subst hc
    have := runFills_from_cursor bytes []
    simpa using this
  · simp [FixedSliceSequenceRandom.dropCheck]

/-- Witness for `fixed_slice_sequence_random_spec` on the two-vector
source `[[1], [2, 3]]`: the first call returns `[1]`, the second `[2, 3]`,
a third call aborts, and the destruction check accepts only after both
calls. -/
theorem fixed_slice_sequence_random_spec_witness :
    FixedSliceSequenceRandom.fill ⟨[[1], [2, 3]], 0⟩ 1 =
      .ok ([1], ⟨[[1], [2, 3]], 1⟩) ∧
    FixedSliceSequenceRandom.fill ⟨[[1], [2, 3]], 1⟩ 2 =
      .ok ([2, 3], ⟨[[1], [2, 3]], 2⟩) ∧
    FixedSliceSequenceRandom.fill ⟨[[1], [2, 3]], 2⟩ 5 =
      .error .indexOutOfBounds ∧
    FixedSliceSequenceRandom.dropCheck ⟨[[1], [2, 3]], 2⟩ = true ∧
    FixedSliceSequenceRandom.dropCheck ⟨[[1], [2, 3]], 1⟩ ≠ true :=
  ⟨(fixed_slice_sequence_random_spec ⟨[[1], [2, 3]], 0⟩ 0 1).1 rfl
      (by decide) (by decide),
   (fixed_slice_sequence_random_spec ⟨[[1], [2, 3]], 1⟩ 1 2).1 rfl
      (by decide) (by decide),
   (fixed_slice_sequence_random_spec ⟨[[1], [2, 3]], 2⟩ 2 5).2.2.1
      (by decide),
   (fixed_slice_sequence_random_spec ⟨[[1], [2, 3]], 2⟩ 2 0).2.2.2.2.mpr
      (by decide),
   fun h => by
     have := (fixed_slice_sequence_random_spec ⟨[[1], [2, 3]], 1⟩ 1 0).2.2.2.2.mp h
     simp at this⟩

theorem splitn2_decomp {sep l pre post : List Nat}
    (h : splitn2 sep l = some (pre, post)) : l = pre ++ sep ++ post := by
  induction l generalizing pre post with
  | nil => simp [splitn2] at h
  | cons c rest ih =>
    rw [splitn2] at h
    split at h
    · rename_i hpre
      obtain ⟨t, ht⟩ := List.isPrefixOf_iff_prefix.mp hpre
      simp only [Option.some.injEq, Prod.mk.injEq] at h
      obtain ⟨h1, h2⟩ := h
      subst h1
      subst h2
      rw [← ht, List.nil_append, List.drop_left]
    · split at h
      · exact absurd h (by simp)
      · rename_i pre0 post0 hm
        simp only [Option.some.injEq, Prod.mk.injEq] at h
        obtain ⟨h1, h2⟩ := h
        subst h1
        subst h2
        have := ih hm
        simp [this]

theorem splitn2_first {sep l pre post : List Nat}
    (h : splitn2 sep l = some (pre, post)) :
    ∀ pre' post', l = pre' ++ sep ++ post' → pre.length ≤ pre'.length := by
  induction l generalizing pre post with
  | nil => simp [splitn2] at h
  | cons c rest ih =>
    intro pre' post' hl
    rw [splitn2] at h
    split at h
    · simp only [Option.some.injEq, Prod.mk.injEq] at h
      obtain ⟨h1, _⟩ := h
      subst h1
      simp
    · rename_i hnp
      cases pre' with
      | nil =>
        exfalso
        apply hnp
        simp only [List.nil_append] at hl
        exact List.isPrefixOf_iff_prefix.mpr ⟨post', hl.symm⟩
      | cons c' pre'' =>
        split at h
        · exact absurd h (by simp)
        · rename_i pre0 post0 hm
          simp only [Option.some.injEq, Prod.mk.injEq] at h
          obtain ⟨h1, _⟩ := h
          subst h1
          simp only [List.cons_append, List.cons.injEq] at hl
          have := ih hm pre'' post' hl.2
          simp only [List.length_cons]
          omega

theorem splitn2_none {sep : List Nat} (hsep : sep ≠ []) :
    ∀ l, splitn2 sep l = none → ∀ pre post, l ≠ pre ++ sep ++ post := by
  intro l
  induction l with
  | nil =>
    intro _ pre post hl
    cases sep with
    | nil => exact hsep rfl
    | cons s ss => simp at hl
  | cons c rest ih =>
    intro h pre post hl
    rw [splitn2] at h
    split at h
    · exact absurd h (by simp)
    · rename_i hnp
      cases pre with
      | nil =>
        simp only [List.nil_append] at hl
        exact hnp (List.isPrefixOf_iff_prefix.mpr ⟨post, hl.symm⟩)
      | cons c' pre' =>
        have hrest : splitn2 sep rest = none := by
          cases hr : splitn2 sep rest with
          | none => rfl
          | some p =>
            obtain ⟨a, b⟩ := p
            rw [hr] at h
            exact absurd h (by simp)
        simp only [List.cons_append, List.cons.injEq] at hl
        exact ih hrest pre' post hl.2

/-- C5: a line whose first character is `[` is accepted only while no
attribute line of the pending case has been read (`is_first_line`; reading
an attribute line is the only transition setting it false) — otherwise the
parse aborts; the line must end with `]`; on success the persistent
current-section value is replaced by the enclosed text (the line minus its
surrounding brackets) and parsing continues with the pending attributes
untouched (the marker itself becomes no attribute). -/
theorem parse_section_line (cs : List Nat) (attrs : List Attr)
    (first : Bool) (line : List Nat) (rest : List (List Nat))
    (hsec : line.head? = some 91) :
    (first = false →
      parseCaseLoop cs attrs first (line :: rest) = .error .sectionNotFirst) ∧
    (first = true → line.getLast? ≠ some 93 →
      parseCaseLoop cs attrs first (line :: rest) = .error .sectionNotClosed) ∧
    (first = true → line.getLast? = some 93 →
      parseCaseLoop cs attrs first (line :: rest) =
        parseCaseLoop (line.dropLast.drop 1) attrs true rest) := by
  have hne : line ≠ [] := by cases line <;> simp_all
  have hnc : ¬ (line.head? = some 35) := by rw [hsec]; simp
  refine ⟨?_, ?_, ?_⟩
  · intro hf
    subst hf
    simp [parseCaseLoop, hne, hnc, hsec]
  · intro hf hlast
    subst hf
    simp [parseCaseLoop, hne, hnc, hsec, hlast]
  · intro hf hlast
    subst hf
    simp [parseCaseLoop, hne, hnc, hsec, hlast]

/-- Witness for `parse_section_line` on the line "[A]": with a pending
attribute line it aborts, as the first content line it sets the section to
"A" and adds no attribute. -/
theorem parse_section_line_witness :
    parseCaseLoop [] [([75], [97], false)] false [[91, 65, 93]] =
      .error .sectionNotFirst ∧
    parseCaseLoop [] [] true [[91, 65, 93]] = parseCaseLoop [65] [] true [] :=
  ⟨(parse_section_line [] [([75], [97], false)] false [91, 65, 93] []
      rfl).1 rfl,
   (parse_section_line [] [] true [91, 65, 93] [] rfl).2.2 rfl rfl⟩

/-- C9: any non-empty, non-comment, non-section line is split at the
*first* occurrence of the literal separator " = " (the first two conjuncts
characterise `splitn2` as exactly that first-occurrence split, with
`syntaxError` when no occurrence exists); both parts are trimmed of
surrounding whitespace; an empty trimmed value aborts; otherwise the pair
is appended as a new unconsumed attribute at the end of the pending case
(and `is_first_line` becomes false). -/
theorem parse_attribute_line (cs : List Nat) (attrs : List Attr)
    (first : Bool) (line : List Nat) (rest : List (List Nat))
    (hne : line ≠ []) (hnc : line.head? ≠ some 35)
    (hns : line.head? ≠ some 91) :
    (splitn2 eqSep line = none ↔ ∀ pre post, line ≠ pre ++ eqSep ++ post) ∧
    (splitn2 eqSep line = none →
      parseCaseLoop cs attrs first (line :: rest) = .error .syntaxError) ∧
    (∀ rawKey rawValue, splitn2 eqSep line = some (rawKey, rawValue) →
      line = rawKey ++ eqSep ++ rawValue ∧
      (∀ pre post, line = pre ++ eqSep ++ post →
        rawKey.length ≤ pre.length) ∧
      (trim rawValue = [] →
        parseCaseLoop cs attrs first (line :: rest) = .error .emptyValue) ∧
      (trim rawValue ≠ [] →
        parseCaseLoop cs attrs first (line :: rest) =
          parseCaseLoop cs (attrs ++ [(trim rawKey, trim rawValue, false)])
            false rest)) := by
  refine ⟨⟨fun h => splitn2_none (by decide) line h, ?_⟩, ?_, ?_⟩
  · intro hno
    cases hs : splitn2 eqSep line with
    | none => rfl
    | some p =>
      obtain ⟨a, b⟩ := p
      exact absurd (splitn2_decomp hs) (hno a b)
  · intro hs
    simp [parseCaseLoop, hne, hnc, hns, hs]
  · intro rawKey rawValue hs
    refine ⟨splitn2_decomp hs, splitn2_first hs, ?_, ?_⟩
    · intro hv
      simp [parseCaseLoop, hne, hnc, hns, hs, hv]
    · intro hv
      have hlen : ¬ ((trim rawValue).length = 0) := by
        simpa [List.length_eq_zero] using hv
      simp [parseCaseLoop, hne, hnc, hns, hs, hlen]

/-- Witness for `parse_attribute_line` on the line "K = v" (and the
separator-free line "Kv", which is a syntax error). -/
theorem parse_attribute_line_witness :
    parseCaseLoop [] [] true [[75, 32, 61, 32, 118]] =
      parseCaseLoop [] [([75], [118], false)] false [] ∧
    parseCaseLoop [] [] true [[75, 118]] = .error .syntaxError :=
  ⟨by
    have h := (parse_attribute_line [] [] true [75, 32, 61, 32, 118] []
      (by decide) (by decide) (by decide)).2.2 [75] [118] (by decide)
    exact h.2.2.2 (by decide),
   (parse_attribute_line [] [] true [75, 118] []
      (by decide) (by decide) (by decide)).2.1 (by decide)⟩

theorem parseAllCases_none {cs : List Nat} {lines : List (List Nat)}
    {s' : List Nat} {rest : List (List Nat)}
    (h : parse_test_case cs lines = .ok (s', none, rest)) :
    parseAllCases cs lines = .ok [] := by
  unfold parseAllCases
  split
  · rename_i e heq
    rw [heq] at h
    exact absurd h (by simp)
  · rfl
  · rename_i s2 tc2 rest2 heq
    rw [heq] at h
    simp at h

theorem parseAllCases_some {cs : List Nat} {lines : List (List Nat)}
    {s' : List Nat} {tc : TestCase} {rest : List (List Nat)}
    (h : parse_test_case cs lines = .ok (s', some tc, rest)) :
    parseAllCases cs lines =
      match parseAllCases s' rest with
      | .error e => .error e
      | .ok cases => .ok ((s', tc) :: cases) := by
  conv_lhs => rw [parseAllCases.eq_def]
  split
  · rename_i e heq
    rw [heq] at h
    exact absurd h (by simp)
  · rename_i s2 rest2 heq
    rw [heq] at h
    simp at h
  · rename_i s2 tc2 rest2 heq
    rw [heq] at h
    obtain ⟨h1, h2, h3⟩ := by simpa using h
    subst h1; subst h2; subst h3
    rfl

/-- The driver loop yields exactly one status per case, whatever the
callback does. -/
theorem runCases_length {σ : Type}
    (f : σ → List Nat → TestCase → σ × TestCase × CbResult) :
    ∀ (s : σ) (cases : List (List Nat × TestCase)),
      (runCases f s cases).2.length = cases.length := by
  intro s cases
  induction cases generalizing s with
  | nil => rfl
  | cons c rest ih =>
    obtain ⟨sec, tc⟩ := c
    simp [runCases, ih]

/-- C2: the driver's per-case classification — callback success with every
attribute consumed passes; success with some unconsumed attribute fails as
`unconsumedAttributes`; a returned domain error fails as
`callbackReturnedError`; a panic is caught at the case boundary
(`catch_unwind` in the source loop, so it is recorded like a returned
error) and classified `callbackPanicked`; and the loop still processes
every subsequent case after any of these (one status per remaining
case). -/
theorem classify_outcome_spec (tc : TestCase) (r : CbResult) :
    (r = .ok → (∀ a ∈ tc.attributes, a.2.2 = true) →
      classifyOutcome tc r = .passed) ∧
    (r = .ok → (∃ a ∈ tc.attributes, a.2.2 = false) →
      classifyOutcome tc r = .unconsumedAttributes) ∧
    (r = .err → classifyOutcome tc r = .callbackReturnedError) ∧
    (r = .panicked → classifyOutcome tc r = .callbackPanicked) ∧
    (∀ (σ : Type) (f : σ → List Nat → TestCase → σ × TestCase × CbResult)
       (s : σ) (sec : List Nat) (rest : List (List Nat × TestCase)),
      ((runCases f s ((sec, tc) :: rest)).2).length = rest.length + 1) := by
  refine ⟨?_, ?_, ?_, ?_, ?_⟩
  · intro hr hall
    subst hr
    have hany : tc.attributes.any (fun a => !a.2.2) = false := by
      rw [List.any_eq_false]
      intro a ha
      simpa using hall a ha
    simp [classifyOutcome, hany]
  · intro hr hex
    subst hr
    have hany : tc.attributes.any (fun a => !a.2.2) = true := by
      rw [List.any_eq_true]
      obtain ⟨a, ha, hfa⟩ := hex
      exact ⟨a, ha, by simpa using hfa⟩
    simp [classifyOutcome, hany]
  · intro hr; subst hr; rfl
  · intro hr; subst hr; rfl
  · intro σ f s sec rest
    simp [runCases, runCases_length]

/-- Witness for `classify_outcome_spec`: a pass, an unconsumed-attribute
failure, a caught panic, and continued processing of one further case
after a panicking one. -/
theorem classify_outcome_spec_witness :
    classifyOutcome ⟨[([75], [97], true)]⟩ .ok = .passed ∧
    classifyOutcome ⟨[([75], [97], false)]⟩ .ok = .unconsumedAttributes ∧
    classifyOutcome ⟨[([75], [97], true)]⟩ .panicked = .callbackPanicked ∧
    (runCases (fun (n : Nat) _ tc => (n, tc, .panicked)) 0
        (([], ⟨[]⟩) :: [([], ⟨[]⟩)])).2.length = 2 :=
  ⟨(classify_outcome_spec ⟨[([75], [97], true)]⟩ .ok).1 rfl (by decide),
   (classify_outcome_spec ⟨[([75], [97], false)]⟩ .ok).2.1 rfl
     ⟨([75], [97], false), by decide, rfl⟩,
   (classify_outcome_spec ⟨[([75], [97], true)]⟩ .panicked).2.2.2.1 rfl,
   (classify_outcome_spec ⟨[]⟩ .panicked).2.2.2.2 Nat
     (fun n _ tc => (n, tc, .panicked)) 0 [] [([], ⟨[]⟩)]⟩

/-- C1: when the file parses into `cases`, the driver produces one status
per parsed case for *every* callback — in particular, earlier failures
never cut the loop short — and after the input is exhausted the whole run
aborts with the single aggregate `testFailed` panic iff at least one case
failed, completing normally otherwise. -/
theorem from_file_aggregate {σ : Type}
    (f : σ → List Nat → TestCase → σ × TestCase × CbResult) (s0 : σ)
    (lines : List (List Nat)) (cases : List (List Nat × TestCase))
    (hp : parseAllCases [] lines = .ok cases) :
    ((runCases f s0 cases).2.length = cases.length) ∧
    (from_file f s0 lines = .error .testFailed ↔
      ∃ st ∈ (runCases f s0 cases).2, st ≠ .passed) ∧
    (from_file f s0 lines = .ok () ↔
      ∀ st ∈ (runCases f s0 cases).2, st = .passed) := by
  refine ⟨runCases_length f s0 cases, ?_, ?_⟩ <;>
    simp only [from_file, hp] <;>
    by_cases hb : (runCases f s0 cases).2.any
      (fun st => decide (st ≠ CaseStatus.passed)) = true
  · rw [if_pos hb]
    simp only [List.any_eq_true, decide_eq_true_eq] at hb
    exact ⟨fun _ => hb, fun _ => rfl⟩
  · rw [if_neg hb]
    rw [Bool.not_eq_true, List.any_eq_false] at hb
    constructor
    · intro h
      exact absurd h (by simp)
    · rintro ⟨st, hst, hne⟩
      exact absurd (by simpa using hb st hst) hne
  · rw [if_pos hb]
    simp only [List.any_eq_true, decide_eq_true_eq] at hb
    constructor
    · intro h
      exact absurd h (by simp)
    · intro hall
      obtain ⟨st, hst, hne⟩ := hb
      exact absurd (hall st hst) hne
  · rw [if_neg hb]
    rw [Bool.not_eq_true, List.any_eq_false] at hb
    exact ⟨fun _ st hst => by simpa using hb st hst, fun _ => rfl⟩

/-- Witness for `from_file_aggregate`: a one-case file whose callback
returns a domain error makes the whole run abort with the aggregate
failure, and the same file with a fully-consuming succeeding callback
completes normally. -/
theorem from_file_aggregate_witness :
    from_file (fun (n : Nat) _ tc => (n, tc, .err)) 0 [[75, 32, 61, 32, 97]] =
      .error .testFailed ∧
    from_file (fun (n : Nat) _ tc =>
        (n, ⟨tc.attributes.map (fun a => (a.1, a.2.1, true))⟩, .ok)) 0
      [[75, 32, 61, 32, 97]] = .ok () := by
  have hp : parseAllCases [] [[75, 32, 61, 32, 97]] =
      .ok [([], ⟨[([75], [97], false)]⟩)] := by
    rw [@parseAllCases_some [] [[75, 32, 61, 32, 97]] []
      ⟨[([75], [97], false)]⟩ [] (by decide)]
    rw [@parseAllCases_none [] [] [] [] (by decide)]
  constructor
  · exact (from_file_aggregate (fun (n : Nat) _ tc => (n, tc, .err)) 0
      [[75, 32, 61, 32, 97]] [([], ⟨[([75], [97], false)]⟩)] hp).2.1.mpr
      ⟨.callbackReturnedError, by decide, by decide⟩
  · exact (from_file_aggregate (fun (n : Nat) _ tc =>
        (n, ⟨tc.attributes.map (fun a => (a.1, a.2.1, true))⟩, .ok)) 0
      [[75, 32, 61, 32, 97]] [([], ⟨[([75], [97], false)]⟩)] hp).2.2.mpr
      (by decide)

end RingTest
